import Mathlib

/-!
Verification development for `src/tools/color_generator.py`, a script that
interpolates between six seed colors (using the `colour` package's HSL-linear
`range_to`), prints the interpolated colors as hex strings and as formatted
normalized float triples, and draws them as horizontal bands into a PIL image
saved as `gradient.png`.

Python floats are modelled by exact rationals (ℚ).  For the observable outputs
of this program (hex strings after byte quantization, formatted 4-decimal
lines, fill bytes) the exact-rational and binary64 computations agree; where a
claim is specifically about binary64 truncation behaviour (C4) an explicit
IEEE-754 binary64 rounding emulation over ℚ is used instead.
-/

set_option maxRecDepth 100000

unseal Rat.add Rat.mul Rat.inv Rat.sub Rat.ofScientific

/-- Value of a single hex digit, as accepted by Python's `int(s, 16)`:
ASCII ranges 0-9 (48..57), a-f (97..102), A-F (65..70).  (Python's `int`
additionally tolerates surrounding whitespace, a sign and underscores; those
forms do not occur in any input considered here.) -/
def hexDigitVal (c : Char) : Option ℕ :=
  let n := c.toNat
  if 48 ≤ n ∧ n ≤ 57 then some (n - 48)
  else if 97 ≤ n ∧ n ≤ 102 then some (n - 97 + 10)
  else if 65 ≤ n ∧ n ≤ 70 then some (n - 65 + 10)
  else none

/-- Accumulator loop for parsing a hex numeral (base-16 positional value). -/
def pyIntHexAux : List Char → ℕ → Option ℕ
  | [], acc => some acc
  | c :: cs, acc =>
    match hexDigitVal c with
    | some v => pyIntHexAux cs (16 * acc + v)
    | none => none

/-- Python's `int(s, 16)` on a (sliced) string: fails (`none`, i.e. the slice
raises `ValueError`) on the empty string or on any non-hex-digit character. -/
def pyIntHex (cs : List Char) : Option ℕ :=
  if cs.isEmpty then none else pyIntHexAux cs 0

/-- Embedding of `hex_to_rgba` (src/tools/color_generator.py lines 4-14):
`lstrip('#')` removes every leading `'#'`; the slices `[0:2]`, `[2:4]`,
`[4:6]` are parsed as hex and divided by 255; alpha is the constant 1.0.
`none` models the `ValueError` Python raises on a bad or too-short slice. -/
def hex_to_rgba (s : String) : Option (ℚ × ℚ × ℚ × ℚ) :=
  let cs := s.data.dropWhile (fun c => c == '#')
  match pyIntHex (cs.take 2), pyIntHex ((cs.drop 2).take 2),
      pyIntHex ((cs.drop 4).take 2) with
  | some r, some g, some b => some ((r : ℚ) / 255, (g : ℚ) / 255, (b : ℚ) / 255, 1)
  | _, _, _ => none

/-- An HSL triple, the internal state of a `colour.Color` object. -/
structure HSL where
  h : ℚ
  s : ℚ
  l : ℚ
  deriving DecidableEq, Repr

/-- Embedding of `colour.rgb2hsl` (colour 0.1.5).  Python computes the raw hue
and then applies the two adjustments `if h < 0: h += 1` and `if h > 1: h -= 1`
in sequence. -/
def rgb2hsl (r g b : ℚ) : HSL :=
  let vmin := min r (min g b)
  let vmax := max r (max g b)
  let diff := vmax - vmin
  let vsum := vmin + vmax
  let l := vsum / 2
  if diff = 0 then ⟨0, 0, l⟩
  else
    let s := if l < 1 / 2 then diff / vsum else diff / (2 - vsum)
    let dr := ((vmax - r) / 6 + diff / 2) / diff
    let dg := ((vmax - g) / 6 + diff / 2) / diff
    let db := ((vmax - b) / 6 + diff / 2) / diff
    let h0 :=
      if r = vmax then db - dg
      else if g = vmax then 1 / 3 + dr - db
      else 2 / 3 + dg - dr
    let h1 := if h0 < 0 then h0 + 1 else h0
    let h2 := if h1 > 1 then h1 - 1 else h1
    ⟨h2, s, l⟩

/-- Embedding of `colour._hue2rgb`.  The source normalizes `vH` into [0,1]
with `while` loops; every call here has `vH ∈ [-1/3, 4/3]`, for which a single
conditional step is the exact same normalization. -/
def hue2rgb (v1 v2 vH0 : ℚ) : ℚ :=
  let vH := if vH0 < 0 then vH0 + 1 else if vH0 > 1 then vH0 - 1 else vH0
  if 6 * vH < 1 then v1 + (v2 - v1) * 6 * vH
  else if 2 * vH < 1 then v2
  else if 3 * vH < 2 then v1 + (v2 - v1) * (2 / 3 - vH) * 6
  else v1

/-- Embedding of `colour.hsl2rgb`. -/
def hsl2rgb (c : HSL) : ℚ × ℚ × ℚ :=
  if c.s = 0 then (c.l, c.l, c.l)
  else
    let v2 := if c.l < 1 / 2 then c.l * (1 + c.s) else (c.l + c.s) - c.s * c.l
    let v1 := 2 * c.l - v2
    (hue2rgb v1 v2 (c.h + 1 / 3), hue2rgb v1 v2 c.h, hue2rgb v1 v2 (c.h - 1 / 3))

/-- Python's `int(x)` on a float/rational: truncation toward zero (the
numerator of the reduced fraction divided by the denominator, rounding toward
zero). -/
def pyInt (x : ℚ) : ℤ := x.num.tdiv x.den

/-- Python's `"%02x" % n`: lowercase hex digits zero-padded (after the sign,
for negative `n`) to a total width of two characters.  Negative and oversized
values never occur for the colors of this program. -/
def pyHex02 (n : ℤ) : String :=
  let ds := Nat.toDigits 16 n.natAbs
  if n < 0 then ⟨'-' :: (if 1 + ds.length < 2 then '0' :: ds else ds)⟩
  else ⟨if ds.length < 2 then '0' :: ds else ds⟩

/-- Round-to-byte used by `colour.rgb2hex`: `int(c * 255 + 0.5)`. -/
def byteOf (c : ℚ) : ℤ := pyInt (c * 255 + 1 / 2)

/-- Embedding of `colour.rgb2hex(rgb, force_long=True)`, the long-form path
used by the `hex_l` property: `'#'` followed by `"%02x" % int(c * 255 + 0.5)`
for each channel. -/
def rgb2hex (rgb : ℚ × ℚ × ℚ) : String :=
  "#" ++ pyHex02 (byteOf rgb.1) ++ pyHex02 (byteOf rgb.2.1) ++ pyHex02 (byteOf rgb.2.2)

/-- The `hex_l` property of a `colour.Color`: its HSL state converted to RGB
and formatted as a long lowercase hex string. -/
def hex_l (c : HSL) : String := rgb2hex (hsl2rgb c)

/-- Embedding of `colour.hex2rgb`: drops the first character (`str_rgb[1:]`),
then parses either six hex digits as three pairs or three hex digits doubled;
anything else raises (`none`). -/
def hex2rgb (s : String) : Option (ℚ × ℚ × ℚ) :=
  let rgb := s.data.drop 1
  if rgb.length = 6 then
    match pyIntHex (rgb.take 2), pyIntHex ((rgb.drop 2).take 2),
        pyIntHex ((rgb.drop 4).take 2) with
    | some r, some g, some b => some ((r : ℚ) / 255, (g : ℚ) / 255, (b : ℚ) / 255)
    | _, _, _ => none
  else if rgb.length = 3 then
    match rgb with
    | [x, y, z] =>
      match pyIntHex [x, x], pyIntHex [y, y], pyIntHex [z, z] with
      | some r, some g, some b => some ((r : ℚ) / 255, (g : ℚ) / 255, (b : ℚ) / 255)
      | _, _, _ => none
    | _ => none
  else none

/-- Construction `colour.Color("#RRGGBB")`: hex parsed to RGB and stored as
HSL.  `none` models the exception raised on a malformed literal. -/
def mkColor (s : String) : Option HSL :=
  (hex2rgb s).map fun t => rgb2hsl t.1 t.2.1 t.2.2

/-- The local `step` tuple of `colour.color_scale`:
`(end_hsl - begin_hsl) / nb` componentwise when `nb > 0`, else zero. -/
def scaleStep (b e : HSL) (nb : ℕ) : HSL :=
  if 0 < nb then ⟨(e.h - b.h) / nb, (e.s - b.s) / nb, (e.l - b.l) / nb⟩
  else ⟨0, 0, 0⟩

/-- Embedding of `colour.color_scale(begin_hsl, end_hsl, nb)`: `nb + 1`
componentwise-linear HSL steps from `b` to `e` inclusive
(`begin + step * r` for `r in range(nb + 1)`). -/
def color_scale (b e : HSL) (nb : ℕ) : List HSL :=
  (List.range (nb + 1)).map fun r : ℕ =>
    ⟨b.h + (scaleStep b e nb).h * (r : ℚ), b.s + (scaleStep b e nb).s * (r : ℚ),
      b.l + (scaleStep b e nb).l * (r : ℚ)⟩

/-- Embedding of `colour.Color.range_to(value, steps)`:
`color_scale(self.hsl, value.hsl, steps - 1)`, yielding `steps` colors. -/
def range_to (c1 c2 : HSL) (steps : ℕ) : List HSL := color_scale c1 c2 (steps - 1)

/-- The script's interpolation step count constant `STEPS` (line 52). -/
def STEPS : ℕ := 10

/-- The script's hardcoded seed colors `initial_colors` (lines 43-50); every
literal parses, so the `filterMap` keeps all six. -/
def initial_colors : List HSL :=
  (["#E6F800", "#71E05A", "#00BE84", "#009794", "#006F83", "#2F4858"]).filterMap mkColor

/-- The default color handed to `getD` list accesses; never actually selected
by any in-range access. -/
def defC : HSL := ⟨0, 0, 0⟩

/-- Embedding of the segment-generation loop (lines 53-56): for each
`i ∈ range(len(seeds) - 1)`, the segment `seeds[i].range_to(seeds[i+1], STEPS)`.
The `getD` default is never consulted because both indices are in range. -/
def colorsOf (seeds : List HSL) : List (List HSL) :=
  (List.range (seeds.length - 1)).map fun i =>
    range_to (seeds.getD i defC) (seeds.getD (i + 1) defC) STEPS

/-- The local constant `STEP_SIZE = 10` of `write_image` (line 17). -/
def STEP_SIZE : ℤ := 10

/-- The local constant `width = 50` of `write_image` (line 20). -/
def widthConst : ℤ := 50

/-- One `draw.rectangle(shape, fill=...)` call: the two corner points of
`shape` and the RGB fill bytes. -/
structure DrawOp where
  x0 : ℤ
  y0 : ℤ
  x1 : ℤ
  y1 : ℤ
  fill : ℤ × ℤ × ℤ
  deriving DecidableEq, Repr

/-- The fill bytes of one band (lines 29-30): `hex_to_rgba(color.hex_l)`
followed by `int(r * 255)` per channel.  `hex_l` always yields a parseable
`#rrggbb` string, so the `none` branch (where Python would raise) is dead. -/
def fillOf (c : HSL) : ℤ × ℤ × ℤ :=
  match hex_to_rgba (hex_l c) with
  | some (r, g, b, _a) => (pyInt (r * 255), pyInt (g * 255), pyInt (b * 255))
  | none => (0, 0, 0)

/-- The inner drawing loop (lines 28-35) over one segment: each stop draws
`[(0, y), (width, y + STEP_SIZE - 2)]` and advances `y` by `STEP_SIZE`. -/
def drawSeg : List HSL → ℤ → List DrawOp
  | [], _ => []
  | c :: cs, y =>
    ⟨0, y, widthConst, y + STEP_SIZE - 2, fillOf c⟩ :: drawSeg cs (y + STEP_SIZE)

/-- The outer drawing loop (line 27): segments in order; the inner loop leaves
`y` advanced by `STEP_SIZE` for each of the segment's stops. -/
def drawAll : List (List HSL) → ℤ → List DrawOp
  | [], _ => []
  | seg :: rest, y => drawSeg seg y ++ drawAll rest (y + STEP_SIZE * seg.length)

/-- The in-memory canvas: dimensions passed to `Image.new` plus the recorded
rectangle draws. -/
structure Canvas where
  width : ℤ
  height : ℤ
  ops : List DrawOp
  deriving DecidableEq, Repr

/-- The canvas height expression of line 21:
`(len(colors) - 1) * STEPS * STEP_SIZE`, where `colors` is the list of
gradient segments handed to `write_image` (Python integer, possibly
negative). -/
def heightOf (colors : List (List HSL)) : ℤ :=
  ((colors.length : ℤ) - 1) * (STEPS : ℤ) * STEP_SIZE

/-- Embedding of `write_image` (lines 16-39) acting on a file system mapping
paths to canvases.  `Image.new` rejects negative dimensions with a
`ValueError` (modelled from Pillow), which the script does not catch; on
success the bands are drawn starting at `y = 0` and `image.save` binds the
fixed path `"gradient.png"` to the canvas, overwriting whatever was there. -/
def write_image (colors : List (List HSL)) (fs : String → Option Canvas) :
    Except String (String → Option Canvas) :=
  if widthConst < 0 ∨ heightOf colors < 0 then
    Except.error "ValueError: Width and height must be >= 0"
  else
    let canvas : Canvas := ⟨widthConst, heightOf colors, drawAll colors 0⟩
    Except.ok fun p => if p = "gradient.png" then some canvas else fs p

/-- Round half to even (the rounding used both by binary64 arithmetic and by
Python's fixed-point float formatting). -/
def rnde (x : ℚ) : ℤ :=
  let f := x.num.fdiv x.den
  let d := x - f
  if d < 1 / 2 then f else if 1 / 2 < d then f + 1 else if f % 2 = 0 then f else f + 1

/-- Zero-pad a number below 10000 to four digits. -/
def pad4 (n : ℕ) : String :=
  if n < 10 then "000" ++ toString n
  else if n < 100 then "00" ++ toString n
  else if n < 1000 then "0" ++ toString n
  else toString n

/-- Python's `f"{x:.4f}"` for x ≥ 0: the value scaled by 10^4 and rounded half
to even (no tie ever arises for the byte-quantized channel values printed by
this program), then printed with exactly four decimal places. -/
def formatQ4 (x : ℚ) : String :=
  let m := (rnde (x * 10000)).toNat
  toString (m / 10000) ++ "." ++ pad4 (m % 10000)

/-- First print pass, inner loop (lines 59-63): one `color.hex_l` line per
stop. -/
def printSegHex : List HSL → List String
  | [] => []
  | c :: cs => hex_l c :: printSegHex cs

/-- First print pass, outer loop. -/
def printHexPass : List (List HSL) → List String
  | [] => []
  | seg :: rest => printSegHex seg ++ printHexPass rest

/-- One line of the second print pass (lines 67-69):
`r, g, b, a = hex_to_rgba(color.hex_l)` then
`print(f"({r:.4f}, {g:.4f}, {b:.4f})")`.  The `none` branch is dead for the
well-formed strings `hex_l` produces (Python would raise there). -/
def tupleLine (c : HSL) : String :=
  match hex_to_rgba (hex_l c) with
  | some (r, g, b, _a) =>
    "(" ++ formatQ4 r ++ ", " ++ formatQ4 g ++ ", " ++ formatQ4 b ++ ")"
  | none => ""

/-- Second print pass, inner loop. -/
def printSegTuple : List HSL → List String
  | [] => []
  | c :: cs => tupleLine c :: printSegTuple cs

/-- Second print pass, outer loop. -/
def printTuplePass : List (List HSL) → List String
  | [] => []
  | seg :: rest => printSegTuple seg ++ printTuplePass rest

/-- Everything the script writes to standard output (lines 59-70), one list
entry per printed line: the hex pass followed by the tuple pass. -/
def stdoutOf (colors : List (List HSL)) : List String :=
  printHexPass colors ++ printTuplePass colors

/-- Floor of the base-2 logarithm by repeated halving, fuel-bounded (the fuel
of 64 covers every magnitude arising here); helper for values ≥ 1. -/
def ilogNN : ℚ → ℕ → ℤ
  | _, 0 => 0
  | x, fuel + 1 => if x < 2 then 0 else ilogNN (x / 2) fuel + 1

/-- Floor of the base-2 logarithm by repeated doubling; helper for values in
(0, 1). -/
def ilogFrac : ℚ → ℕ → ℤ
  | _, 0 => 0
  | x, fuel + 1 => if 1 ≤ x then 0 else ilogFrac (x * 2) fuel - 1

/-- Largest `e` with `2^e ≤ x`, for `0 < x` in the normal binary64 range. -/
def floorLog2 (x : ℚ) : ℤ := if 1 ≤ x then ilogNN x 64 else ilogFrac x 64

/-- Rounding of an exact rational to the nearest IEEE-754 binary64 value
(round half to even, 53-bit significand; normal range only, which covers all
values arising in this program). -/
def fl (x : ℚ) : ℚ :=
  if x = 0 then 0
  else
    let y := |x|
    let e := floorLog2 y
    let k : ℤ := 52 - e
    let m := rnde (y * 2 ^ k)
    (if x < 0 then -1 else 1) * (m : ℚ) / 2 ^ k

/-- The binary64 round trip a channel byte takes through the script: the
float division `int(pair, 16) / 255.0` of `hex_to_rgba` (line 9-11) followed
by the truncating conversion `int(r * 255)` of `write_image` (line 30), with
each arithmetic result rounded to binary64. -/
def pyFloatByteRoundTrip (v : ℕ) : ℤ := pyInt (fl (fl ((v : ℚ) / 255) * 255))

/-- Each element is at most its successor (weakly nondecreasing). -/
def nondec : List ℤ → Bool
  | [] => true
  | [_] => true
  | a :: b :: rest => decide (a ≤ b) && nondec (b :: rest)

/-- Each element is at least its successor (weakly nonincreasing). -/
def noninc : List ℤ → Bool
  | [] => true
  | [_] => true
  | a :: b :: rest => decide (b ≤ a) && noninc (b :: rest)

/-- The monotonicity asserted by the spec for one channel of one segment: the
byte sequence moves weakly monotonically in the direction leading from the
first seed's byte `a` to the second seed's byte `b`. -/
def monoFromTo (a b : ℤ) (xs : List ℤ) : Prop :=
  if a ≤ b then nondec xs = true else noninc xs = true

instance (a b : ℤ) (xs : List ℤ) : Decidable (monoFromTo a b xs) :=
  inferInstanceAs (Decidable
    (if a ≤ b then nondec xs = true else noninc xs = true))

theorem color_scale_length (b e : HSL) (nb : ℕ) :
    (color_scale b e nb).length = nb + 1 := by
  unfold color_scale
  rw [List.length_map, List.length_range]

theorem colorsOf_length (seeds : List HSL) :
    (colorsOf seeds).length = seeds.length - 1 := by
  simp [colorsOf]

theorem colorsOf_getD (seeds : List HSL) (i : ℕ) (h : i < seeds.length - 1) :
    (colorsOf seeds).getD i [] =
      range_to (seeds.getD i defC) (seeds.getD (i + 1) defC) STEPS := by
  unfold colorsOf
  rw [List.getD_eq_getElem?_getD, List.getElem?_map, List.getElem?_range h]
  rfl

theorem color_scale_head? (b e : HSL) (nb : ℕ) :
    (color_scale b e nb).head? = some b := by
  obtain ⟨bh, bs, bl⟩ := b
  unfold color_scale
  rw [List.range_succ_eq_map, List.map_cons, List.head?_cons]
  simp [HSL.mk.injEq]

theorem color_scale_getLast?_nine (b e : HSL) :
    (color_scale b e 9).getLast? = some e := by
  obtain ⟨bh, bs, bl⟩ := b
  obtain ⟨eh, es, el⟩ := e
  have h : (color_scale ⟨bh, bs, bl⟩ ⟨eh, es, el⟩ 9).getLast? =
      some ⟨bh + (eh - bh) / 9 * ((9 : ℕ) : ℚ), bs + (es - bs) / 9 * ((9 : ℕ) : ℚ),
        bl + (el - bl) / 9 * ((9 : ℕ) : ℚ)⟩ := rfl
  rw [h]
  simp only [Option.some.injEq, HSL.mk.injEq]
  norm_num

theorem range_to_head? (b e : HSL) : (range_to b e STEPS).head? = some b :=
  color_scale_head? b e 9

theorem range_to_getLast? (b e : HSL) : (range_to b e STEPS).getLast? = some e :=
  color_scale_getLast?_nine b e

theorem drawSeg_length (l : List HSL) (y : ℤ) : (drawSeg l y).length = l.length := by
  induction l generalizing y with
  | nil => rfl
  | cons c cs ih => simp [drawSeg, ih]

theorem drawSeg_append (l₁ l₂ : List HSL) (y : ℤ) :
    drawSeg (l₁ ++ l₂) y = drawSeg l₁ y ++ drawSeg l₂ (y + STEP_SIZE * l₁.length) := by
  induction l₁ generalizing y with
  | nil => simp [drawSeg]
  | cons c cs ih =>
    rw [List.cons_append]
    show (⟨0, y, widthConst, y + STEP_SIZE - 2, fillOf c⟩ ::
      drawSeg (cs ++ l₂) (y + STEP_SIZE)) = _
    rw [ih (y + STEP_SIZE)]
    show _ = (⟨0, y, widthConst, y + STEP_SIZE - 2, fillOf c⟩ ::
      drawSeg cs (y + STEP_SIZE)) ++ _
    rw [List.cons_append]
    have harg : y + STEP_SIZE + STEP_SIZE * (cs.length : ℤ) =
        y + STEP_SIZE * ((c :: cs).length : ℤ) := by
      push_cast [List.length_cons]
      ring
    rw [harg]

theorem drawAll_eq_flatten (colors : List (List HSL)) (y : ℤ) :
    drawAll colors y = drawSeg colors.flatten y := by
  induction colors generalizing y with
  | nil => rfl
  | cons seg rest ih =>
    simp only [drawAll, List.flatten_cons, drawSeg_append, ih]

theorem drawSeg_get? (l : List HSL) (y : ℤ) (k : ℕ) :
    (drawSeg l y).get? k = (l.get? k).map fun c =>
      ⟨0, y + STEP_SIZE * k, widthConst, y + STEP_SIZE * k + STEP_SIZE - 2, fillOf c⟩ := by
  induction l generalizing y k with
  | nil => simp [drawSeg]
  | cons c cs ih =>
    cases k with
    | zero => simp [drawSeg]
    | succ k =>
      show (drawSeg cs (y + STEP_SIZE)).get? k = ((c :: cs).get? (k + 1)).map _
      rw [ih (y + STEP_SIZE) k]
      have h1 : y + STEP_SIZE + STEP_SIZE * (k : ℤ) =
          y + STEP_SIZE * ((k + 1 : ℕ) : ℤ) := by
        push_cast
        ring
      rw [h1]
      rfl

theorem printSegHex_eq (l : List HSL) : printSegHex l = l.map hex_l := by
  induction l with
  | nil => rfl
  | cons c cs ih => simp [printSegHex, ih]

theorem printHexPass_eq (colors : List (List HSL)) :
    printHexPass colors = colors.flatten.map hex_l := by
  induction colors with
  | nil => rfl
  | cons seg rest ih => simp [printHexPass, printSegHex_eq, ih]

theorem printSegTuple_eq (l : List HSL) : printSegTuple l = l.map tupleLine := by
  induction l with
  | nil => rfl
  | cons c cs ih => simp [printSegTuple, ih]

theorem printTuplePass_eq (colors : List (List HSL)) :
    printTuplePass colors = colors.flatten.map tupleLine := by
  induction colors with
  | nil => rfl
  | cons seg rest ih => simp [printTuplePass, printSegTuple_eq, ih]

/-- C3: an empty or singleton seed list produces zero gradient segments; the
canvas height expression is then `(0 - 1) * 10 * 10 = -100`, a degenerate
(negative) size that `Image.new` rejects, and the uncaught `ValueError`
terminates the run instead of producing an image. -/
theorem degenerate_seed_list_faults (seeds : List HSL) (h : seeds.length ≤ 1)
    (fs : String → Option Canvas) :
    colorsOf seeds = [] ∧ heightOf (colorsOf seeds) = -100 ∧
    write_image (colorsOf seeds) fs =
      Except.error "ValueError: Width and height must be >= 0" := by
  have h0 : seeds.length - 1 = 0 := by omega
  have hc : colorsOf seeds = [] := by
    simp [colorsOf, h0]
  refine ⟨hc, ?_, ?_⟩
  · rw [hc]; rfl
  · rw [hc]; rfl

theorem degenerate_seed_list_faults_witness :
    ((["#000000"]).filterMap mkColor).length ≤ 1 ∧
    (colorsOf ((["#000000"]).filterMap mkColor) = [] ∧
      heightOf (colorsOf ((["#000000"]).filterMap mkColor)) = -100 ∧
      write_image (colorsOf ((["#000000"]).filterMap mkColor)) (fun _ => none) =
        Except.error "ValueError: Width and height must be >= 0") :=
  ⟨by decide, degenerate_seed_list_faults _ (by decide) _⟩

/-- C6: the number of rectangle bands drawn equals the number of generated
color stops, which is `(seed_count - 1) * STEPS`. -/
theorem bands_equal_stops (seeds : List HSL) (h : 1 ≤ seeds.length) :
    (drawAll (colorsOf seeds) 0).length = (colorsOf seeds).flatten.length ∧
    (colorsOf seeds).flatten.length = (seeds.length - 1) * STEPS := by
  constructor
  · rw [drawAll_eq_flatten, drawSeg_length]
  · rw [List.length_flatten]
    unfold colorsOf
    rw [List.map_map]
    have : (List.length ∘ fun i =>
        range_to (seeds.getD i defC) (seeds.getD (i + 1) defC) STEPS) =
        fun _ => STEPS := by
      funext i
      simp [Function.comp, range_to, color_scale_length, STEPS]
    rw [this, List.map_const', List.sum_replicate, smul_eq_mul, List.length_range]

theorem bands_equal_stops_witness :
    1 ≤ initial_colors.length ∧
    ((drawAll (colorsOf initial_colors) 0).length =
        (colorsOf initial_colors).flatten.length ∧
      (colorsOf initial_colors).flatten.length = (initial_colors.length - 1) * STEPS) :=
  ⟨by decide, bands_equal_stops initial_colors (by decide)⟩

/-- C9: for consecutive segments `i` and `i + 1`, the last stop of segment `i`
and the first stop of segment `i + 1` are both exactly the shared interior
seed color `i + 1`. -/
theorem segments_share_seed_stop (seeds : List HSL) (i : ℕ)
    (h : i + 2 < seeds.length) :
    ((colorsOf seeds).getD i []).getLast? = some (seeds.getD (i + 1) defC) ∧
    ((colorsOf seeds).getD (i + 1) []).head? = some (seeds.getD (i + 1) defC) := by
  have h1 : i < seeds.length - 1 := by omega
  have h2 : i + 1 < seeds.length - 1 := by omega
  rw [colorsOf_getD seeds i h1, colorsOf_getD seeds (i + 1) h2]
  exact ⟨range_to_getLast? _ _, range_to_head? _ _⟩

theorem segments_share_seed_stop_witness :
    0 + 2 < initial_colors.length ∧
    (((colorsOf initial_colors).getD 0 []).getLast? =
        some (initial_colors.getD (0 + 1) defC) ∧
      ((colorsOf initial_colors).getD (0 + 1) []).head? =
        some (initial_colors.getD (0 + 1) defC)) :=
  ⟨by decide, segments_share_seed_stop initial_colors 0 (by decide)⟩

theorem hexDigitVal_ne_hash {c : Char} {v : ℕ} (h : hexDigitVal c = some v) :
    (c == '#') = false := by
  by_cases hc : c = '#'
  · subst hc
    have hn : hexDigitVal '#' = none := by decide
    rw [hn] at h
    exact Option.noConfusion h
  · exact beq_eq_false_iff_ne.mpr hc

theorem hexDigitVal_le15 {c : Char} {v : ℕ} (h : hexDigitVal c = some v) :
    v ≤ 15 := by
  simp only [hexDigitVal] at h
  split_ifs at h with h1 h2 h3 <;> simp_all <;> omega

/-- C1 (code bug): `write_image` receives the list of gradient segments, so
`height = (len(colors) - 1) * STEPS * STEP_SIZE` is `(seed_count - 2) * 100`,
not the `(seed_count - 1) * 100` the spec states.  On the spec's own example
`["#000000", "#FFFFFF"]` the canvas height is 0 while the 10 drawn bands
advance the offset by 100 vertical units; with the program's six seeds the
height is 400 against bands occupying 500, so the last segment is clipped
away and the height never exactly fits the bands. -/
theorem canvas_height_misses_bands :
    (colorsOf ((["#000000", "#FFFFFF"]).filterMap mkColor)).length = 1 ∧
    heightOf (colorsOf ((["#000000", "#FFFFFF"]).filterMap mkColor)) = 0 ∧
    ((colorsOf ((["#000000", "#FFFFFF"]).filterMap mkColor)).flatten.length : ℤ) *
      STEP_SIZE = 100 ∧
    heightOf (colorsOf initial_colors) = 400 ∧
    ((colorsOf initial_colors).flatten.length : ℤ) * STEP_SIZE = 500 := by
  decide

/-- C2 (counterexample): on the first adjacent seed pair
(`#E6F800` → `#71E05A`) the green channel of the generated segment rises from
248 to 251 before falling to the second seed's 224, so the channel is not
monotone in the direction from the first seed's green to the second's. -/
theorem hsl_interpolation_not_monotone :
    ((colorsOf initial_colors).getD 0 []).map (fun c => (fillOf c).2.1) =
      [248, 251, 246, 242, 239, 235, 232, 229, 226, 224] ∧
    (fillOf (initial_colors.getD 0 defC)).2.1 = 248 ∧
    (fillOf (initial_colors.getD 1 defC)).2.1 = 224 ∧
    ¬ monoFromTo 248 224
      (((colorsOf initial_colors).getD 0 []).map fun c => (fillOf c).2.1) := by
  decide

/-- C2 (amended): every adjacent-seed gradient segment has exactly
`STEPS = 10` colors, starts exactly at the first seed of its pair and ends
exactly at the second seed. -/
theorem segment_endpoints_exact (seeds : List HSL) (i : ℕ)
    (h : i + 1 < seeds.length) :
    ((colorsOf seeds).getD i []).length = STEPS ∧
    ((colorsOf seeds).getD i []).head? = some (seeds.getD i defC) ∧
    ((colorsOf seeds).getD i []).getLast? = some (seeds.getD (i + 1) defC) := by
  have h1 : i < seeds.length - 1 := by omega
  rw [colorsOf_getD seeds i h1]
  refine ⟨?_, range_to_head? _ _, range_to_getLast? _ _⟩
  show (color_scale _ _ 9).length = 10
  rw [color_scale_length]

theorem segment_endpoints_exact_witness :
    0 + 1 < initial_colors.length ∧
    (((colorsOf initial_colors).getD 0 []).length = STEPS ∧
      ((colorsOf initial_colors).getD 0 []).head? = some (initial_colors.getD 0 defC) ∧
      ((colorsOf initial_colors).getD 0 []).getLast? =
        some (initial_colors.getD (0 + 1) defC)) :=
  ⟨by decide, segment_endpoints_exact initial_colors 0 (by decide)⟩

/-- C4: pushing any byte 0..255 through `int(pair, 16) / 255.0` and back
through the truncating `int(r * 255)` reproduces the byte exactly, both under
exact binary64 emulation and in exact rational arithmetic; in particular the
evenly-representable channels round-trip and the truncation deficit never
exceeds the claimed 1. -/
theorem float_byte_roundtrip_exact : ∀ v : ℕ, v < 256 →
    pyFloatByteRoundTrip v = v ∧ pyInt ((v : ℚ) / 255 * 255) = v := by
  decide

theorem float_byte_roundtrip_exact_witness :
    230 < 256 ∧
    (pyFloatByteRoundTrip 230 = (230 : ℕ) ∧ pyInt ((230 : ℕ) / 255 * 255 : ℚ) = (230 : ℕ)) :=
  ⟨by decide, float_byte_roundtrip_exact 230 (by decide)⟩

/-- C5: when the computed height is nonnegative, `write_image` succeeds; the
k-th drawn rectangle (k from 0, traversal order over segments and stops)
spans x from 0 to the canvas width and y from `10 * k` to `10 * k + 8` (the
band height minus the 2-unit gap), is filled with the k-th stop's converted
bytes, and after the last stop the canvas is stored at the fixed path
`"gradient.png"` — replacing whatever that path held — while every other
path is untouched. -/
theorem write_image_draws_in_order (colors : List (List HSL))
    (fs : String → Option Canvas) (h : 0 ≤ heightOf colors) :
    ∃ fs', write_image colors fs = Except.ok fs' ∧
      fs' "gradient.png" =
        some ⟨widthConst, heightOf colors, drawAll colors 0⟩ ∧
      (∀ p, p ≠ "gradient.png" → fs' p = fs p) ∧
      ∀ k : ℕ, (drawAll colors 0).get? k = (colors.flatten.get? k).map fun c =>
        ⟨0, 10 * (k : ℤ), 50, 10 * (k : ℤ) + 8, fillOf c⟩ := by
  have hcond : ¬(widthConst < 0 ∨ heightOf colors < 0) := by
    push_neg
    exact ⟨by norm_num [widthConst], h⟩
  refine ⟨fun p => if p = "gradient.png" then
      some ⟨widthConst, heightOf colors, drawAll colors 0⟩ else fs p, ?_, ?_, ?_, ?_⟩
  · unfold write_image
    rw [if_neg hcond]
  · simp
  · intro p hp
    simp [if_neg hp]
  · intro k
    rw [drawAll_eq_flatten, drawSeg_get?]
    congr 1
    funext c
    show DrawOp.mk 0 (0 + STEP_SIZE * (k : ℤ)) widthConst
        (0 + STEP_SIZE * (k : ℤ) + STEP_SIZE - 2) (fillOf c) =
      DrawOp.mk 0 (10 * (k : ℤ)) 50 (10 * (k : ℤ) + 8) (fillOf c)
    have e1 : (0 : ℤ) + STEP_SIZE * (k : ℤ) = 10 * (k : ℤ) := by
      simp only [STEP_SIZE]
      omega
    have e2 : 10 * (k : ℤ) + STEP_SIZE - 2 = 10 * (k : ℤ) + 8 := by
      simp only [STEP_SIZE]
      omega
    rw [e1, e2]
    rfl

theorem write_image_draws_in_order_witness :
    0 ≤ heightOf (colorsOf initial_colors) ∧
    (∃ fs', write_image (colorsOf initial_colors) (fun _ => none) = Except.ok fs' ∧
      fs' "gradient.png" =
        some ⟨widthConst, heightOf (colorsOf initial_colors),
          drawAll (colorsOf initial_colors) 0⟩ ∧
      (∀ p, p ≠ "gradient.png" → fs' p = none) ∧
      ∀ k : ℕ, (drawAll (colorsOf initial_colors) 0).get? k =
        ((colorsOf initial_colors).flatten.get? k).map fun c =>
          ⟨0, 10 * (k : ℤ), 50, 10 * (k : ℤ) + 8, fillOf c⟩) :=
  ⟨by decide, write_image_draws_in_order (colorsOf initial_colors) (fun _ => none)
    (by decide)⟩

theorem channel_bounds {v w : ℕ} (hv : v ≤ 15) (hw : w ≤ 15) :
    0 ≤ ((16 * v + w : ℕ) : ℚ) / 255 ∧ ((16 * v + w : ℕ) : ℚ) / 255 ≤ 1 := by
  constructor
  · positivity
  · rw [div_le_one (by norm_num)]
    have h255 : (16 * v + w : ℕ) ≤ 255 := by omega
    exact_mod_cast h255

/-- C7: on a well-formed six-hex-digit color string, with or without a single
leading `'#'`, `hex_to_rgba` returns exactly the three parsed digit pairs
each divided by 255 — so every channel lies in [0, 1] — and the alpha
component is the constant 1. -/
theorem hex_to_rgba_parses (c₁ c₂ c₃ c₄ c₅ c₆ : Char) (v₁ v₂ v₃ v₄ v₅ v₆ : ℕ)
    (h₁ : hexDigitVal c₁ = some v₁) (h₂ : hexDigitVal c₂ = some v₂)
    (h₃ : hexDigitVal c₃ = some v₃) (h₄ : hexDigitVal c₄ = some v₄)
    (h₅ : hexDigitVal c₅ = some v₅) (h₆ : hexDigitVal c₆ = some v₆) :
    hex_to_rgba ⟨['#', c₁, c₂, c₃, c₄, c₅, c₆]⟩ =
      some (((16 * v₁ + v₂ : ℕ) : ℚ) / 255, ((16 * v₃ + v₄ : ℕ) : ℚ) / 255,
        ((16 * v₅ + v₆ : ℕ) : ℚ) / 255, 1) ∧
    hex_to_rgba ⟨[c₁, c₂, c₃, c₄, c₅, c₆]⟩ =
      some (((16 * v₁ + v₂ : ℕ) : ℚ) / 255, ((16 * v₃ + v₄ : ℕ) : ℚ) / 255,
        ((16 * v₅ + v₆ : ℕ) : ℚ) / 255, 1) ∧
    (0 ≤ ((16 * v₁ + v₂ : ℕ) : ℚ) / 255 ∧ ((16 * v₁ + v₂ : ℕ) : ℚ) / 255 ≤ 1) ∧
    (0 ≤ ((16 * v₃ + v₄ : ℕ) : ℚ) / 255 ∧ ((16 * v₃ + v₄ : ℕ) : ℚ) / 255 ≤ 1) ∧
    (0 ≤ ((16 * v₅ + v₆ : ℕ) : ℚ) / 255 ∧ ((16 * v₅ + v₆ : ℕ) : ℚ) / 255 ≤ 1) := by
  have hd := hexDigitVal_ne_hash h₁
  refine ⟨?_, ?_, channel_bounds (hexDigitVal_le15 h₁) (hexDigitVal_le15 h₂),
    channel_bounds (hexDigitVal_le15 h₃) (hexDigitVal_le15 h₄),
    channel_bounds (hexDigitVal_le15 h₅) (hexDigitVal_le15 h₆)⟩
  · simp [hex_to_rgba, List.dropWhile_cons, hd, pyIntHex, pyIntHexAux,
      h₁, h₂, h₃, h₄, h₅, h₆]
  · simp [hex_to_rgba, List.dropWhile_cons, hd, pyIntHex, pyIntHexAux,
      h₁, h₂, h₃, h₄, h₅, h₆]

theorem hex_to_rgba_parses_witness :
    hexDigitVal 'e' = some 14 ∧ hexDigitVal '6' = some 6 ∧
    hexDigitVal 'f' = some 15 ∧ hexDigitVal '8' = some 8 ∧
    hexDigitVal '0' = some 0 ∧
    (hex_to_rgba ⟨['#', 'e', '6', 'f', '8', '0', '0']⟩ =
      some (((16 * 14 + 6 : ℕ) : ℚ) / 255, ((16 * 15 + 8 : ℕ) : ℚ) / 255,
        ((16 * 0 + 0 : ℕ) : ℚ) / 255, 1) ∧
    hex_to_rgba ⟨['e', '6', 'f', '8', '0', '0']⟩ =
      some (((16 * 14 + 6 : ℕ) : ℚ) / 255, ((16 * 15 + 8 : ℕ) : ℚ) / 255,
        ((16 * 0 + 0 : ℕ) : ℚ) / 255, 1) ∧
    (0 ≤ ((16 * 14 + 6 : ℕ) : ℚ) / 255 ∧ ((16 * 14 + 6 : ℕ) : ℚ) / 255 ≤ 1) ∧
    (0 ≤ ((16 * 15 + 8 : ℕ) : ℚ) / 255 ∧ ((16 * 15 + 8 : ℕ) : ℚ) / 255 ≤ 1) ∧
    (0 ≤ ((16 * 0 + 0 : ℕ) : ℚ) / 255 ∧ ((16 * 0 + 0 : ℕ) : ℚ) / 255 ≤ 1)) :=
  ⟨by decide, by decide, by decide, by decide, by decide,
    hex_to_rgba_parses 'e' '6' 'f' '8' '0' '0' 14 6 15 8 0 0
      (by decide) (by decide) (by decide) (by decide) (by decide) (by decide)⟩

/-- C10: when the six characters after the leading `'#'` are hex digits,
`hex_to_rgba` reads only those six: arbitrary trailing characters (e.g. an
alpha pair of an 8-digit hex string) do not change the result, which is the
parse of the 6-digit prefix with alpha forced to 1; likewise without the
`'#'`. -/
theorem hex_to_rgba_ignores_trailing (c₁ c₂ c₃ c₄ c₅ c₆ : Char)
    (rest : List Char) (v₁ v₂ v₃ v₄ v₅ v₆ : ℕ)
    (h₁ : hexDigitVal c₁ = some v₁) (h₂ : hexDigitVal c₂ = some v₂)
    (h₃ : hexDigitVal c₃ = some v₃) (h₄ : hexDigitVal c₄ = some v₄)
    (h₅ : hexDigitVal c₅ = some v₅) (h₆ : hexDigitVal c₆ = some v₆) :
    hex_to_rgba ⟨'#' :: c₁ :: c₂ :: c₃ :: c₄ :: c₅ :: c₆ :: rest⟩ =
      hex_to_rgba ⟨['#', c₁, c₂, c₃, c₄, c₅, c₆]⟩ ∧
    hex_to_rgba ⟨c₁ :: c₂ :: c₃ :: c₄ :: c₅ :: c₆ :: rest⟩ =
      hex_to_rgba ⟨[c₁, c₂, c₃, c₄, c₅, c₆]⟩ ∧
    hex_to_rgba ⟨'#' :: c₁ :: c₂ :: c₃ :: c₄ :: c₅ :: c₆ :: rest⟩ =
      some (((16 * v₁ + v₂ : ℕ) : ℚ) / 255, ((16 * v₃ + v₄ : ℕ) : ℚ) / 255,
        ((16 * v₅ + v₆ : ℕ) : ℚ) / 255, 1) := by
  have hd := hexDigitVal_ne_hash h₁
  refine ⟨?_, ?_, ?_⟩
  · simp [hex_to_rgba, List.dropWhile_cons, hd]
  · simp [hex_to_rgba, List.dropWhile_cons, hd]
  · simp [hex_to_rgba, List.dropWhile_cons, hd, pyIntHex, pyIntHexAux,
      h₁, h₂, h₃, h₄, h₅, h₆]

theorem hex_to_rgba_ignores_trailing_witness :
    hexDigitVal '1' = some 1 ∧ hexDigitVal '2' = some 2 ∧ hexDigitVal '3' = some 3 ∧
    (hex_to_rgba ⟨'#' :: '1' :: '1' :: '2' :: '2' :: '3' :: '3' :: ['4', '4']⟩ =
      hex_to_rgba ⟨['#', '1', '1', '2', '2', '3', '3']⟩ ∧
    hex_to_rgba ⟨'1' :: '1' :: '2' :: '2' :: '3' :: '3' :: ['4', '4']⟩ =
      hex_to_rgba ⟨['1', '1', '2', '2', '3', '3']⟩ ∧
    hex_to_rgba ⟨'#' :: '1' :: '1' :: '2' :: '2' :: '3' :: '3' :: ['4', '4']⟩ =
      some (((16 * 1 + 1 : ℕ) : ℚ) / 255, ((16 * 2 + 2 : ℕ) : ℚ) / 255,
        ((16 * 3 + 3 : ℕ) : ℚ) / 255, 1)) :=
  ⟨by decide, by decide, by decide,
    hex_to_rgba_ignores_trailing '1' '1' '2' '2' '3' '3' ['4', '4'] 1 1 2 2 3 3
      (by decide) (by decide) (by decide) (by decide) (by decide) (by decide)⟩

/-- C8: standard output is exactly two passes over the same color stops in
the same traversal order — first one `hex_l` line per stop, then one
`"(r.rrrr, g.gggg, b.bbbb)"` line (normalized floats, four decimal places)
per stop — illustrated on the program's run: 100 lines, opening with
`#e6f800`, whose 51st line is the first seed reformatted as a float triple
and whose last line is the float triple of the last seed. -/
theorem stdout_two_passes :
    (∀ colors : List (List HSL), stdoutOf colors =
      colors.flatten.map hex_l ++ colors.flatten.map tupleLine) ∧
    (stdoutOf (colorsOf initial_colors)).length = 100 ∧
    (stdoutOf (colorsOf initial_colors)).getD 0 "" = "#e6f800" ∧
    (stdoutOf (colorsOf initial_colors)).getD 50 "" = "(0.9020, 0.9725, 0.0000)" ∧
    (stdoutOf (colorsOf initial_colors)).getD 99 "" = "(0.1843, 0.2824, 0.3451)" := by
  refine ⟨fun colors => ?_, by decide, by decide, by decide, by decide⟩
  rw [stdoutOf, printHexPass_eq, printTuplePass_eq]
